import Mathlib

/-!
Verification development for the graph-model-builder subsystem of a
threat-intelligence exploration UI.

The definitions below are a shallow embedding of the JavaScript source:

* `nodeDataToCytoscape` — the dual-format backend-response converter
  (the "build" operation): it accepts a record carrying a focal entity
  field `n` and either explicit `nodes`/`edges` arrays, a legacy
  `connections` array, or neither.
* `mergeGraphData`, `collapseNode`, `deleteNode` — the in-place graph
  edit operations of the interactive graph view.
* `resolveHops` — the hops-clamping logic of `getNodeByName` in the API
  layer.
* `processNodesForTimeline` and its helpers — the temporal-range
  extraction of the timeline view.

Conventions for embedding JavaScript values:

* `Option String` models a string field that may be absent
  (`undefined`/`null`) or empty; `none` stands for any JS-falsy value,
  matching the pervasive `a || b` defaulting idiom of the source, which
  treats absent and empty strings alike.
* `Option (List _)` models an optional array field; `some []` is a
  present (truthy, in JS every array is truthy) empty array.
* Dates are modelled as integer timestamps (`Int`), the value of
  `Date.getTime()`; `none` stands for a field that is absent, falsy, or
  fails to parse.
-/

namespace ThreatGraph

/-- Definition of the JS string-defaulting idiom `a || b` where the empty
string is the only falsy string. -/
def jsOr (a b : String) : String := if a = "" then b else a

/-- Definition of `a || b` where the left side may be absent
(`undefined`/`null`, modelled `none`) or empty, both JS-falsy. -/
def jsOrOpt (a : Option String) (b : String) : String :=
  match a with
  | some s => if s = "" then b else s
  | none => b

/-- Shapes of a backend relationship value, as distinguished by
`getRelationshipString` in the source: a plain string (returned as-is,
even when empty, because the `typeof` check comes first), an object with
a truthy `type` field, another truthy non-string value without a truthy
`type` that stringifies to `asString`, or a nullish/falsy value. -/
inductive RelVal where
  | str (s : String)
  | objWithType (t : String)
  | objOther (asString : String)
  | nullish
deriving DecidableEq

/-- Embedding of `getRelationshipString` from the graph view source. -/
def getRelationshipString : RelVal → String
  | .str s => s
  | .objWithType t => t
  | .objOther r => r
  | .nullish => "CONNECTED"

/-- Embedding of the `NODE_COLORS` lookup table of the graph view. -/
def NODE_COLORS : List (String × String) :=
  [("AttackPattern", "#ef4444"), ("Campaign", "#f59e0b"),
   ("Identity", "#8b5cf6"), ("Incident", "#ec4899"),
   ("Indicator", "#14b8a6"), ("Malware", "#dc2626"),
   ("Observable", "#06b6d4"), ("Organization", "#3b82f6"),
   ("Report", "#6366f1"), ("ThreatActor", "#b91c1c"),
   ("Tool", "#10b981"), ("Vulnerability", "#f97316"),
   ("File", "#84cc16"), ("DomainName", "#22d3ee"),
   ("URL", "#a855f7"), ("EmailAddr", "#f43f5e"),
   ("IPv4Adress", "#06b6d4"), ("default", "#497f76")]

/-- Embedding of the `EDGE_COLORS` lookup table of the graph view. -/
def EDGE_COLORS : List (String × String) :=
  [("USES", "#3b82f6"), ("TARGETS", "#ef4444"), ("DETECTS", "#10b981"),
   ("BASED_ON", "#8b5cf6"), ("RELATED_TO", "#f59e0b"),
   ("INVOLVES", "#ec4899"), ("LAUNCHED", "#b91c1c"),
   ("EMPLOYES", "#f97316"), ("DESCRIBES", "#6366f1"),
   ("INDICATED_BY", "#14b8a6"), ("HAS_IDENTITY", "#a855f7"),
   ("default", "#497f76")]

/-- Embedding of `getNodeColor`: `NODE_COLORS[type] || NODE_COLORS["default"]`;
`none` models an absent `label` field, whose lookup yields `undefined`. -/
def getNodeColor (t : Option String) : String :=
  match t.bind (fun s => NODE_COLORS.lookup s) with
  | some c => c
  | none => (NODE_COLORS.lookup "default").getD ""

/-- Embedding of `getEdgeColor`: `EDGE_COLORS[relType] || EDGE_COLORS["default"]`. -/
def getEdgeColor (relType : String) : String :=
  match EDGE_COLORS.lookup relType with
  | some c => c
  | none => (EDGE_COLORS.lookup "default").getD ""

/-- Focal entity `nodeData.n` of a backend record: the `name` and `label`
attributes; `none` models an absent field. -/
structure FocalEntity where
  name : Option String
  label : Option String
deriving DecidableEq

/-- Attribute bag `nodeInfo.data` of an entry of the backend `nodes`
array; the interface requires `name` (it may still be empty). -/
structure NodePayload where
  name : String
  label : Option String
deriving DecidableEq

/-- Entry of the backend `nodes` array. The source reads
`nodeInfo.isMainNode || false`, so the flag is modelled as a `Bool`. -/
structure InputNode where
  id : Option String
  isMainNode : Bool
  data : NodePayload
deriving DecidableEq

/-- Entry of the backend `edges` array. -/
structure InputEdge where
  id : Option String
  source : String
  target : String
  relationship : RelVal
deriving DecidableEq

/-- The `node` sub-object of a legacy connection entry; `name = none`
models the `!conn.node.name` guard (absent or falsy name). -/
structure ConnNode where
  name : Option String
  label : Option String
deriving DecidableEq

/-- Entry of the legacy `connections` array; `node = none` models the
`!conn.node` guard, and `source`/`target` are `none` when absent or falsy
(the path-aware branch requires both to be truthy). -/
structure Connection where
  node : Option ConnNode
  relationship : RelVal
  source : Option String
  target : Option String
deriving DecidableEq

/-- A backend response record as consumed by `nodeDataToCytoscape`. -/
structure InputRecord where
  n : Option FocalEntity
  nodes : Option (List InputNode)
  edges : Option (List InputEdge)
  connections : Option (List Connection)
deriving DecidableEq

/-- A constructed graph node: identity, display and pre-computed style
data, exactly the fields the source stores in `data` (the raw
`properties` bag is carried along in the source for display only and is
not inspected by any graph operation, so it is not modelled here). -/
structure GNode where
  id : String
  label : String
  type : String
  isMainNode : Bool
  color : String
  size : Nat
  fontSize : Nat
  fontWeight : String
  borderWidth : Nat
  borderColor : String
deriving DecidableEq

/-- A constructed graph edge with its pre-computed style data. -/
structure GEdge where
  id : String
  source : String
  target : String
  label : String
  relationshipType : String
  color : String
  width : Nat
  arrowShape : String
deriving DecidableEq

/-- The working graph: the element sets held by the rendering instance. -/
structure Graph where
  nodes : List GNode
  edges : List GEdge
deriving DecidableEq

/-- Construction of the main (root) node from the focal entity, following
the argument defaults of the source: id `n.name || "unknown"`, label
`n.name || "Unknown"`, type `n.label || "Unknown"`, flag `isMainNode`
set, and the main-node style (size 80, bold, border). -/
def mkMainNode (n : FocalEntity) : GNode :=
  { id := jsOrOpt n.name "unknown"
    label := jsOrOpt n.name "Unknown"
    type := jsOrOpt n.label "Unknown"
    isMainNode := true
    color := getNodeColor n.label
    size := 80
    fontSize := 14
    fontWeight := "bold"
    borderWidth := 3
    borderColor := "#f8fafc" }

/-- Resolution of the id of a listed backend node:
`nodeInfo.id || nodeInfo.data.name`. -/
def listedNodeId (ni : InputNode) : String := jsOrOpt ni.id ni.data.name

/-- Conversion of a listed backend node, propagating its
`isMainNode` flag into the style computation as the source does. -/
def mkListedNode (ni : InputNode) : GNode :=
  let nodeId := listedNodeId ni
  { id := nodeId
    label := jsOr ni.data.name nodeId
    type := jsOrOpt ni.data.label "Unknown"
    isMainNode := ni.isMainNode
    color := getNodeColor ni.data.label
    size := if ni.isMainNode then 80 else 60
    fontSize := if ni.isMainNode then 14 else 12
    fontWeight := if ni.isMainNode then "bold" else "normal"
    borderWidth := if ni.isMainNode then 3 else 0
    borderColor := "#f8fafc" }

/-- Conversion of a listed backend edge at position `idx`: id
`edge.id || "edge-" ++ idx`, literal source and target, normalized
relationship used for both label and `relationshipType`. -/
def mkListedEdge (idx : Nat) (e : InputEdge) : GEdge :=
  let relType := getRelationshipString e.relationship
  { id := jsOrOpt e.id ("edge-" ++ toString idx)
    source := e.source
    target := e.target
    label := relType
    relationshipType := relType
    color := getEdgeColor relType
    width := 2
    arrowShape := "triangle" }

/-- Node synthesized for the target of a path-aware connection entry
(label `conn.node.name || targetId`). -/
def mkPathTargetNode (tgt : String) (cn : ConnNode) (connectedNodeId : String) : GNode :=
  { id := tgt
    label := jsOr connectedNodeId tgt
    type := jsOrOpt cn.label "Unknown"
    isMainNode := false
    color := getNodeColor cn.label
    size := 60
    fontSize := 12
    fontWeight := "normal"
    borderWidth := 0
    borderColor := "#f8fafc" }

/-- Node synthesized for a legacy star connection entry (id and label are
both the connected node name). -/
def mkStarNode (connectedNodeId : String) (cn : ConnNode) : GNode :=
  { id := connectedNodeId
    label := connectedNodeId
    type := jsOrOpt cn.label "Unknown"
    isMainNode := false
    color := getNodeColor cn.label
    size := 60
    fontSize := 12
    fontWeight := "normal"
    borderWidth := 0
    borderColor := "#f8fafc" }

/-- Edge synthesized for a connection entry at position `idx`; the star
branch uses width 3, the path-aware branch width 2, as in the source. -/
def mkConnEdge (idx : Nat) (src tgt relType : String) (w : Nat) : GEdge :=
  { id := "edge-" ++ toString idx
    source := src
    target := tgt
    label := relType
    relationshipType := relType
    color := getEdgeColor relType
    width := w
    arrowShape := "triangle" }

/-- Accumulator of the construction loops: the node list, the edge list
and the `processedNodes` id set (kept as a list, queried by `contains`). -/
structure BuildSt where
  nodes : List GNode
  edges : List GEdge
  processed : List String
deriving DecidableEq

/-- One iteration of the listed-nodes loop: skip the entry when its
resolved id was already processed, otherwise push the converted node and
record the id. -/
def listedNodeStep (st : BuildSt) (ni : InputNode) : BuildSt :=
  let nodeId := listedNodeId ni
  if st.processed.contains nodeId then st
  else { st with nodes := st.nodes ++ [mkListedNode ni]
                 processed := st.processed ++ [nodeId] }

/-- One iteration of the connections loop (entry with its index): skip
entries failing the `!conn.node || !conn.node.name` guard; with truthy
`source` and `target` take the path-aware branch (add the target node if
new, then the literal edge); otherwise take the legacy star branch (add
the connected node if new, then an edge from the main node to it). -/
def connStep (mainId : String) (st : BuildSt) (p : Nat × Connection) : BuildSt :=
  match p.2.node with
  | none => st
  | some cn =>
    match cn.name with
    | none => st
    | some connectedNodeId =>
      let relType := getRelationshipString p.2.relationship
      match p.2.source, p.2.target with
      | some src, some tgt =>
        let st1 :=
          if st.processed.contains tgt then st
          else { st with nodes := st.nodes ++ [mkPathTargetNode tgt cn connectedNodeId]
                         processed := st.processed ++ [tgt] }
        { st1 with edges := st1.edges ++ [mkConnEdge p.1 src tgt relType 2] }
      | _, _ =>
        let st1 :=
          if st.processed.contains connectedNodeId then st
          else { st with nodes := st.nodes ++ [mkStarNode connectedNodeId cn]
                         processed := st.processed ++ [connectedNodeId] }
        { st1 with edges := st1.edges ++ [mkConnEdge p.1 mainId connectedNodeId relType 3] }

/-- Embedding of `nodeDataToCytoscape` (the final, dual-format converter):
without a focal entity the result is the empty graph; with explicit
(truthy) `edges` and `nodes` arrays every listed node is added
(first occurrence of an id wins) and every listed edge is emitted exactly
as given; otherwise a present `connections` array is folded entry by
entry; otherwise the graph is the main node alone. -/
def nodeDataToCytoscape (nodeData : InputRecord) : Graph :=
  match nodeData.n with
  | none => { nodes := [], edges := [] }
  | some n =>
    let mainNode := mkMainNode n
    let st0 : BuildSt := { nodes := [mainNode], edges := [], processed := [mainNode.id] }
    match nodeData.edges, nodeData.nodes with
    | some es, some ns =>
      let st1 := ns.foldl listedNodeStep st0
      { nodes := st1.nodes, edges := es.enum.map (fun p => mkListedEdge p.1 p.2) }
    | _, _ =>
      match nodeData.connections with
      | some conns =>
        let st1 := conns.enum.foldl (connStep mainNode.id) st0
        { nodes := st1.nodes, edges := st1.edges }
      | none => { nodes := st0.nodes, edges := st0.edges }

/-- Lookup used by the merge operation: `cy.getElementById` matches any
element of the instance, node or edge. -/
def hasElementId (g : Graph) (i : String) : Bool :=
  g.nodes.any (fun n => n.id == i) || g.edges.any (fun e => e.id == i)

/-- One iteration of the node loop of `mergeGraphData`: add the incoming
node unless its id already names an element. -/
def mergeNodeStep (acc : Graph) (nodeObj : GNode) : Graph :=
  if hasElementId acc nodeObj.id then acc
  else { acc with nodes := acc.nodes ++ [nodeObj] }

/-- One iteration of the edge loop of `mergeGraphData`: add the incoming
edge unless its id already names an element, or an existing edge carries
the same `(source, target, relationshipType)` triple (the
duplicate-by-content guard, independent of the id). -/
def mergeEdgeStep (acc : Graph) (edgeObj : GEdge) : Graph :=
  if hasElementId acc edgeObj.id then acc
  else if acc.edges.any (fun e =>
      e.source == edgeObj.source && e.target == edgeObj.target &&
      e.relationshipType == edgeObj.relationshipType) then acc
  else { acc with edges := acc.edges ++ [edgeObj] }

/-- Embedding of `mergeGraphData`: fold the incoming nodes, then the
incoming edges, into the existing graph. -/
def mergeGraphData (g : Graph) (newGraphData : Graph) : Graph :=
  let g1 := newGraphData.nodes.foldl mergeNodeStep g
  newGraphData.edges.foldl mergeEdgeStep g1

/-- Embedding of `deleteNode`: resolve the node by id; a node carrying
the `isMainNode` flag is protected (no mutation, falsy result), any other
node is removed together with every edge it is incident to. The returned
`Bool` is the success flag described by the specification (the source
signals failure by returning early). -/
def deleteNode (g : Graph) (nodeId : String) : Bool × Graph :=
  match g.nodes.find? (fun n => n.id == nodeId) with
  | none => (false, g)
  | some n =>
    if n.isMainNode then (false, g)
    else (true,
      { nodes := g.nodes.filter (fun m => m.id != nodeId)
        edges := g.edges.filter (fun e => !(e.source == nodeId || e.target == nodeId)) })

/-- Predicate for an edge connecting the pivot `nodeId` with node `n`,
in either direction (the open neighbourhood used by `collapseNode`). -/
def connectsTo (nodeId : String) (n : GNode) (e : GEdge) : Bool :=
  (e.source == nodeId && e.target == n.id) || (e.source == n.id && e.target == nodeId)

/-- One iteration of the `collapseNode` loop over a connected node `cn`:
skip any node carrying the `isMainNode` flag; otherwise remove it (with
its incident edges) when all of its current incident edges connect it
only to the pivot `nodeId`, incrementing the removed count. -/
def collapseStep (nodeId : String) (st : Graph × Nat) (cn : GNode) : Graph × Nat :=
  if cn.isMainNode then st
  else
    let allEdges := st.1.edges.filter (fun e => e.source == cn.id || e.target == cn.id)
    if allEdges.all (fun e => e.source == nodeId || e.target == nodeId) then
      ({ nodes := st.1.nodes.filter (fun m => m.id != cn.id)
         edges := st.1.edges.filter (fun e => !(e.source == cn.id || e.target == cn.id)) },
       st.2 + 1)
    else st

/-- Embedding of `collapseNode` proper: snapshot the open neighbourhood
of the pivot and fold `collapseStep` over it. -/
def collapseNode (g : Graph) (nodeId : String) : Graph × Nat :=
  let connectedNodes := g.nodes.filter (fun n =>
    n.id != nodeId && g.edges.any (fun e => connectsTo nodeId n e))
  connectedNodes.foldl (collapseStep nodeId) (g, 0)

end ThreatGraph

namespace Api

/-- The hops value `getNodeByName` is about to validate, after the
`hops === null` fallback to the stored context-depth setting and after
`parseInt(hops, 10)`. The outer `Option` of `hopsArg` distinguishes a
null argument (`none`, fall back to the stored setting) from a supplied
one; the inner `Option Int` is the result of `parseInt`, with `none`
standing for `NaN`. -/
def rawHops (hopsArg : Option (Option Int)) (stored : Option Int) : Option Int :=
  match hopsArg with
  | none => stored
  | some v => v

/-- Embedding of the validation clause of `getNodeByName`:
`if (isNaN(hops) || hops < 0 || hops > 3) hops = 1`, applied to the
parsed hops value; the result is the integer appended to the query
string. -/
def resolveHops (hopsArg : Option (Option Int)) (stored : Option Int) : Int :=
  match rawHops hopsArg stored with
  | none => 1
  | some h => if h < 0 ∨ 3 < h then 1 else h

end Api

namespace Timeline

/-- The seven known date field names of the timeline component. -/
def DATE_FIELDS : List String :=
  ["first_seen", "last_seen", "published_date", "start_date", "end_date",
   "detection_date", "resolved_date"]

/-- A node as seen by the timeline component: the fields of the
Cytoscape data bag it reads. `props f = some t` models a property `f`
that is present, truthy and parses to the timestamp `t`; `none` models a
property that is absent, falsy, or rejected by `parseDate`. -/
structure TLNode where
  id : String
  label : String
  type : String
  color : String
  props : String → Option Int

/-- Embedding of `extractDateFields`: walk the known date fields in
order and keep those that parse; the JS object built there enumerates in
insertion order, hence as a list in `DATE_FIELDS` order. -/
def extractDateFields (props : String → Option Int) : List (String × Int) :=
  DATE_FIELDS.filterMap (fun f => (props f).map (fun d => (f, d)))

/-- Result record of `getDateRange`. -/
structure DateRange where
  startDate : Int
  endDate : Int
  markers : List (String × Int)
deriving DecidableEq

/-- Embedding of `getDateRange`: nothing for an empty field set;
otherwise sort the date values ascending (the JS comparator
`(a, b) => a - b`) and take the first as `startDate` and the last as
`endDate`; every extracted field becomes a marker (the filter excluding
first/last markers is commented out in the source). -/
def getDateRange (dateFields : List (String × Int)) : Option DateRange :=
  let dateValues := dateFields.map (fun p => p.2)
  if dateValues.isEmpty then none
  else
    let sortedDates := dateValues.insertionSort (fun a b => a ≤ b)
    some { startDate := sortedDates.headD 0
           endDate := sortedDates.getLastD 0
           markers := dateFields }

/-- Entry pushed onto the timeline data array for one node (the source
also stores the raw `dateFields` map, whose content equals `markers`). -/
structure TimelineEntry where
  nodeId : String
  nodeName : String
  nodeType : String
  startDate : Int
  endDate : Int
  markers : List (String × Int)
  color : String
deriving DecidableEq

/-- The per-node body of the `processNodesForTimeline` loop: skip nodes
with no parsed date field, otherwise push the range entry. -/
def timelineItem (node : TLNode) : Option TimelineEntry :=
  let dateFields := extractDateFields node.props
  if dateFields.isEmpty then none
  else
    (getDateRange dateFields).map (fun range =>
      { nodeId := node.id
        nodeName := node.label
        nodeType := node.type
        startDate := range.startDate
        endDate := range.endDate
        markers := range.markers
        color := node.color })

/-- Embedding of `processNodesForTimeline`: collect the entries of nodes
carrying temporal data, then sort ascending by `startDate` (the JS
comparator `(a, b) => a.startDate - b.startDate`). -/
def processNodesForTimeline (nodes : List TLNode) : List TimelineEntry :=
  let data := nodes.filterMap timelineItem
  data.insertionSort (fun a b => a.startDate ≤ b.startDate)

end Timeline

namespace ThreatGraph

/-- Nodes of a graph with no duplicate ids are determined by their id. -/
theorem nodes_id_inj {g : Graph} (hids : (g.nodes.map (fun nd => nd.id)).Nodup) :
    ∀ a ∈ g.nodes, ∀ b ∈ g.nodes, a.id = b.id → a = b :=
  fun _ ha _ hb hab => List.inj_on_of_nodup_map hids ha hb hab

/-- Folding the node loop of the merge over nodes already present adds
nothing. -/
theorem mergeNodeFold_self (g : Graph) :
    ∀ (l : List GNode), (∀ x ∈ l, x ∈ g.nodes) → l.foldl mergeNodeStep g = g := by
  intro l
  induction l with
  | nil => intro _; rfl
  | cons x xs ih =>
    intro h
    have hel : hasElementId g x.id = true := by
      have hx : x ∈ g.nodes := h x (by simp)
      simp only [hasElementId, Bool.or_eq_true, List.any_eq_true]
      exact Or.inl ⟨x, hx, by simp⟩
    simp only [List.foldl_cons, mergeNodeStep, hel, if_true]
    exact ih (fun y hy => h y (by simp [hy]))

/-- Folding the edge loop of the merge over edges already present adds
nothing. -/
theorem mergeEdgeFold_self (g : Graph) :
    ∀ (l : List GEdge), (∀ x ∈ l, x ∈ g.edges) → l.foldl mergeEdgeStep g = g := by
  intro l
  induction l with
  | nil => intro _; rfl
  | cons x xs ih =>
    intro h
    have hel : hasElementId g x.id = true := by
      have hx : x ∈ g.edges := h x (by simp)
      simp only [hasElementId, Bool.or_eq_true, List.any_eq_true]
      exact Or.inr ⟨x, hx, by simp⟩
    simp only [List.foldl_cons, mergeEdgeStep, hel, if_true]
    exact ih (fun y hy => h y (by simp [hy]))

/-- Merging a graph into itself is the identity. -/
theorem mergeGraphData_self (g : Graph) : mergeGraphData g g = g := by
  unfold mergeGraphData
  rw [mergeNodeFold_self g g.nodes (fun x hx => hx)]
  exact mergeEdgeFold_self g g.edges (fun x hx => hx)

/-- One collapse step keeps every `isMainNode` node and only ever removes
nodes of the ambient graph. -/
theorem collapseStep_inv (pivotId : String) (g : Graph) (r : GNode)
    (hmain : r.isMainNode = true)
    (hinj : ∀ a ∈ g.nodes, ∀ b ∈ g.nodes, a.id = b.id → a = b)
    (st : Graph × Nat) (c : GNode) (hc : c ∈ g.nodes)
    (hr : r ∈ st.1.nodes) (hsub : ∀ m ∈ st.1.nodes, m ∈ g.nodes) :
    r ∈ (collapseStep pivotId st c).1.nodes ∧
      ∀ m ∈ (collapseStep pivotId st c).1.nodes, m ∈ g.nodes := by
  unfold collapseStep
  by_cases hcm : c.isMainNode = true
  · simp only [hcm, if_true]
    exact ⟨hr, hsub⟩
  · simp only [hcm, if_false, Bool.false_eq_true]
    split
    · constructor
      · apply List.mem_filter.mpr
        refine ⟨hr, ?_⟩
        have hrg : r ∈ g.nodes := hsub r hr
        have hne : r ≠ c := by
          intro hrc
          rw [hrc] at hmain
          exact hcm hmain
        have : r.id ≠ c.id := fun hid => hne (hinj r hrg c hc hid)
        simpa [bne_iff_ne] using this
      · intro m hm
        exact hsub m (List.mem_of_mem_filter hm)
    · exact ⟨hr, hsub⟩

/-- The collapse fold keeps every `isMainNode` node of the starting
state, provided every visited node belongs to the ambient graph, whose
node ids are injective. -/
theorem collapseFold_inv (pivotId : String) (g : Graph) (r : GNode)
    (hmain : r.isMainNode = true)
    (hinj : ∀ a ∈ g.nodes, ∀ b ∈ g.nodes, a.id = b.id → a = b) :
    ∀ (l : List GNode) (st : Graph × Nat),
      (∀ c ∈ l, c ∈ g.nodes) →
      r ∈ st.1.nodes → (∀ m ∈ st.1.nodes, m ∈ g.nodes) →
      r ∈ (l.foldl (collapseStep pivotId) st).1.nodes := by
  intro l
  induction l with
  | nil => intro st _ hr _; exact hr
  | cons c cs ih =>
    intro st hl hr hsub
    have hstep := collapseStep_inv pivotId g r hmain hinj st c (hl c (by simp)) hr hsub
    simp only [List.foldl_cons]
    exact ih (collapseStep pivotId st c) (fun x hx => hl x (by simp [hx])) hstep.1 hstep.2

/-- Claim C6: deleting the root node fails and never mutates the graph.
For every graph whose node ids are unique and every node `r` carrying the
`isMainNode` (root) flag, `deleteNode` invoked with the id of `r` returns
the failure flag and the graph unchanged. -/
theorem deleteNode_root_protected (g : Graph) (r : GNode)
    (hids : (g.nodes.map (fun nd => nd.id)).Nodup)
    (hr : r ∈ g.nodes) (hmain : r.isMainNode = true) :
    deleteNode g r.id = (false, g) := by
  unfold deleteNode
  cases hfind : g.nodes.find? (fun n => n.id == r.id) with
  | none =>
    have := List.find?_eq_none.mp hfind r hr
    simp at this
  | some n =>
    have hpn := List.find?_some hfind
    have hn : n ∈ g.nodes := List.mem_of_find?_eq_some hfind
    have hnr : n = r := nodes_id_inj hids n hn r hr (by simpa using hpn)
    rw [hnr]
    simp [hmain]

/-- Concrete instance of the C6 theorem: deleting the root of a two-node
graph returns false and leaves the graph unchanged. -/
theorem deleteNode_root_protected_witness :
    deleteNode
      { nodes := [⟨"A", "A", "ThreatActor", true, "#b91c1c", 80, 14, "bold", 3, "#f8fafc"⟩,
                  ⟨"B", "B", "Tool", false, "#10b981", 60, 12, "normal", 0, "#f8fafc"⟩]
        edges := [⟨"edge-0", "A", "B", "USES", "USES", "#3b82f6", 3, "triangle"⟩] }
      "A"
    = (false,
      { nodes := [⟨"A", "A", "ThreatActor", true, "#b91c1c", 80, 14, "bold", 3, "#f8fafc"⟩,
                  ⟨"B", "B", "Tool", false, "#10b981", 60, 12, "normal", 0, "#f8fafc"⟩]
        edges := [⟨"edge-0", "A", "B", "USES", "USES", "#3b82f6", 3, "triangle"⟩] }) :=
  deleteNode_root_protected _
    (⟨"A", "A", "ThreatActor", true, "#b91c1c", 80, 14, "bold", 3, "#f8fafc"⟩)
    (by decide) (by decide) (by decide)

/-- Claim C7: `collapseNode` never removes the root node. For every graph
with unique node ids, every pivot id, and every node `r` carrying the
`isMainNode` flag, `r` is still present after the collapse. -/
theorem collapseNode_preserves_root (g : Graph) (pivotId : String) (r : GNode)
    (hids : (g.nodes.map (fun nd => nd.id)).Nodup)
    (hr : r ∈ g.nodes) (hmain : r.isMainNode = true) :
    r ∈ (collapseNode g pivotId).1.nodes := by
  unfold collapseNode
  exact collapseFold_inv pivotId g r hmain
    (fun a ha b hb hab => List.inj_on_of_nodup_map hids ha hb hab)
    _ (g, 0) (fun c hc => List.mem_of_mem_filter hc) hr (fun m hm => hm)

/-- Concrete instance of the C7 theorem: collapsing around B in the graph
A—B, where the root A is a structural leaf hanging off the pivot B, keeps
the root node A. -/
theorem collapseNode_preserves_root_witness :
    (⟨"A", "A", "ThreatActor", true, "#b91c1c", 80, 14, "bold", 3, "#f8fafc"⟩ : GNode) ∈
      (collapseNode
        { nodes := [⟨"A", "A", "ThreatActor", true, "#b91c1c", 80, 14, "bold", 3, "#f8fafc"⟩,
                    ⟨"B", "B", "Tool", false, "#10b981", 60, 12, "normal", 0, "#f8fafc"⟩]
          edges := [⟨"edge-0", "A", "B", "USES", "USES", "#3b82f6", 3, "triangle"⟩] }
        "B").1.nodes :=
  collapseNode_preserves_root _ "B" _ (by decide) (by decide) (by decide)

/-- Claim C8: merging a copy of a graph into itself adds nothing. For
every graph with unique node ids and unique edge ids, the node and edge
counts are unchanged by a self-merge. -/
theorem merge_self_counts_unchanged (g : Graph)
    (_h1 : (g.nodes.map (fun nd => nd.id)).Nodup)
    (_h2 : (g.edges.map (fun e => e.id)).Nodup) :
    (mergeGraphData g g).nodes.length = g.nodes.length ∧
      (mergeGraphData g g).edges.length = g.edges.length := by
  rw [mergeGraphData_self g]
  exact ⟨rfl, rfl⟩

/-- Concrete instance of the C8 theorem on a two-node, one-edge graph. -/
theorem merge_self_counts_unchanged_witness :
    (mergeGraphData
      { nodes := [⟨"A", "A", "ThreatActor", true, "#b91c1c", 80, 14, "bold", 3, "#f8fafc"⟩,
                  ⟨"B", "B", "Tool", false, "#10b981", 60, 12, "normal", 0, "#f8fafc"⟩]
        edges := [⟨"edge-0", "A", "B", "USES", "USES", "#3b82f6", 3, "triangle"⟩] }
      { nodes := [⟨"A", "A", "ThreatActor", true, "#b91c1c", 80, 14, "bold", 3, "#f8fafc"⟩,
                  ⟨"B", "B", "Tool", false, "#10b981", 60, 12, "normal", 0, "#f8fafc"⟩]
        edges := [⟨"edge-0", "A", "B", "USES", "USES", "#3b82f6", 3, "triangle"⟩] }).nodes.length = 2 ∧
    (mergeGraphData
      { nodes := [⟨"A", "A", "ThreatActor", true, "#b91c1c", 80, 14, "bold", 3, "#f8fafc"⟩,
                  ⟨"B", "B", "Tool", false, "#10b981", 60, 12, "normal", 0, "#f8fafc"⟩]
        edges := [⟨"edge-0", "A", "B", "USES", "USES", "#3b82f6", 3, "triangle"⟩] }
      { nodes := [⟨"A", "A", "ThreatActor", true, "#b91c1c", 80, 14, "bold", 3, "#f8fafc"⟩,
                  ⟨"B", "B", "Tool", false, "#10b981", 60, 12, "normal", 0, "#f8fafc"⟩]
        edges := [⟨"edge-0", "A", "B", "USES", "USES", "#3b82f6", 3, "triangle"⟩] }).edges.length = 1 :=
  merge_self_counts_unchanged _ (by decide) (by decide)

end ThreatGraph

namespace Api

/-- Claim C9: the hops value sent to the backend always lies in 0..3, and
any invalid resolved value — a null argument whose stored setting fails
to parse, a value that parses to NaN, or an integer outside 0..3 — is
replaced by the fallback 1. -/
theorem getNodeByName_hops_clamped (a : Option (Option Int)) (s : Option Int) :
    (0 ≤ resolveHops a s ∧ resolveHops a s ≤ 3) ∧
      (rawHops a s = none → resolveHops a s = 1) ∧
      (∀ h : Int, rawHops a s = some h → (h < 0 ∨ 3 < h) → resolveHops a s = 1) := by
  cases hraw : rawHops a s with
  | none =>
    have hres : resolveHops a s = 1 := by
      unfold resolveHops
      rw [hraw]
    refine ⟨⟨by rw [hres]; omega, by rw [hres]; omega⟩, fun _ => hres, ?_⟩
    intro h hh
    exact Option.noConfusion hh
  | some h =>
    have hres : resolveHops a s = if h < 0 ∨ 3 < h then 1 else h := by
      unfold resolveHops
      rw [hraw]
    by_cases hc : h < 0 ∨ 3 < h
    · have h1 : resolveHops a s = 1 := by rw [hres, if_pos hc]
      refine ⟨⟨by rw [h1]; omega, by rw [h1]; omega⟩, fun habs => Option.noConfusion habs, ?_⟩
      intro h2 hh2 _
      exact h1
    · have h1 : resolveHops a s = h := by rw [hres, if_neg hc]
      refine ⟨⟨by rw [h1]; omega, by rw [h1]; omega⟩, fun habs => Option.noConfusion habs, ?_⟩
      intro h2 hh2 hout
      injection hh2 with hh2e
      subst hh2e
      exact absurd hout hc

/-- Concrete instance of the C9 theorem: a supplied hops of 7 is sent as
the fallback 1. -/
theorem getNodeByName_hops_clamped_witness : resolveHops (some (some 7)) none = 1 :=
  (getNodeByName_hops_clamped (some (some 7)) none).2.2 7 rfl (Or.inr (by omega))

end Api

namespace ThreatGraph

/-- Invariant I2 of the specification: no two edges of the graph carry
the same `(source, target, relationshipType)` triple. -/
def TripleDistinct (g : Graph) : Prop :=
  g.edges.Pairwise (fun a b =>
    ¬(a.source = b.source ∧ a.target = b.target ∧ a.relationshipType = b.relationshipType))

instance (g : Graph) : Decidable (TripleDistinct g) := by
  unfold TripleDistinct
  infer_instance

/-- The node loop of the merge never touches the edge list. -/
theorem mergeNodeFold_edges (l : List GNode) :
    ∀ (st : Graph), (l.foldl mergeNodeStep st).edges = st.edges := by
  induction l with
  | nil => intro st; rfl
  | cons x xs ih =>
    intro st
    simp only [List.foldl_cons]
    rw [ih]
    unfold mergeNodeStep
    split <;> rfl

/-- The edge loop of the merge preserves triple-distinctness: an edge is
only appended when no existing edge matches its content triple. -/
theorem mergeEdgeFold_tripleDistinct (l : List GEdge) :
    ∀ (st : Graph),
      st.edges.Pairwise (fun a b =>
        ¬(a.source = b.source ∧ a.target = b.target ∧ a.relationshipType = b.relationshipType)) →
      (l.foldl mergeEdgeStep st).edges.Pairwise (fun a b =>
        ¬(a.source = b.source ∧ a.target = b.target ∧ a.relationshipType = b.relationshipType)) := by
  induction l with
  | nil => intro st h; exact h
  | cons x xs ih =>
    intro st h
    simp only [List.foldl_cons]
    apply ih
    unfold mergeEdgeStep
    split
    · exact h
    · split
      · exact h
      · rename_i hdup
        simp only []
        rw [List.pairwise_append]
        refine ⟨h, List.pairwise_singleton _ _, ?_⟩
        intro a ha b hb
        rw [List.mem_singleton] at hb
        subst hb
        rintro ⟨h1, h2, h3⟩
        apply hdup
        simp only [List.any_eq_true, Bool.and_eq_true, beq_iff_eq]
        exact ⟨a, ha, ⟨h1, h2⟩, h3⟩

/-- Claim C2 (amended): the merge operation preserves triple-distinctness
— it skips any incoming edge whose `(source, target, relationshipType)`
triple already occurs, even under a different id — but `build` itself
does not establish the invariant (see the counterexample). -/
theorem merge_preserves_tripleDistinct (g sub : Graph) (h : TripleDistinct g) :
    TripleDistinct (mergeGraphData g sub) := by
  unfold TripleDistinct at h ⊢
  unfold mergeGraphData
  apply mergeEdgeFold_tripleDistinct
  rw [mergeNodeFold_edges]
  exact h

/-- Concrete instance of the C2 amended theorem: merging a subgraph that
repeats an existing edge content triple under a fresh id leaves the graph
triple-distinct. -/
theorem merge_preserves_tripleDistinct_witness :
    TripleDistinct
      { nodes := [⟨"A", "A", "ThreatActor", true, "#b91c1c", 80, 14, "bold", 3, "#f8fafc"⟩,
                  ⟨"B", "B", "Tool", false, "#10b981", 60, 12, "normal", 0, "#f8fafc"⟩]
        edges := [⟨"edge-0", "A", "B", "USES", "USES", "#3b82f6", 3, "triangle"⟩] } ∧
    TripleDistinct
      (mergeGraphData
        { nodes := [⟨"A", "A", "ThreatActor", true, "#b91c1c", 80, 14, "bold", 3, "#f8fafc"⟩,
                    ⟨"B", "B", "Tool", false, "#10b981", 60, 12, "normal", 0, "#f8fafc"⟩]
          edges := [⟨"edge-0", "A", "B", "USES", "USES", "#3b82f6", 3, "triangle"⟩] }
        { nodes := []
          edges := [⟨"edge-99", "A", "B", "USES", "USES", "#3b82f6", 2, "triangle"⟩] }) :=
  ⟨by decide, merge_preserves_tripleDistinct _ _ (by decide)⟩

/-- Input record used to refute the build half of claim C2: two listed
edges with identical content triples and no ids. -/
def C2record : InputRecord :=
  { n := some ⟨some "A", none⟩
    nodes := some []
    edges := some [⟨none, "B", "C", .str "USES"⟩, ⟨none, "B", "C", .str "USES"⟩]
    connections := none }

/-- Counterexample to claim C2 as stated: `build` emits both duplicate
edges (ids `edge-0` and `edge-1`, same triple), so a graph produced by
`build` can violate triple-distinctness. -/
theorem build_violates_tripleDistinct : ¬ TripleDistinct (nodeDataToCytoscape C2record) := by
  decide

/-- The listed-nodes loop preserves a unique `isMainNode` count whenever
every flagged entry resolves to an id that is already processed at entry
(in particular the root id). -/
theorem listedFold_count (rootId : String) (ns : List InputNode) :
    ∀ (st : BuildSt),
      (∀ ni ∈ ns, ni.isMainNode = true → listedNodeId ni = rootId) →
      rootId ∈ st.processed →
      st.nodes.countP (fun nd => nd.isMainNode) = 1 →
      (ns.foldl listedNodeStep st).nodes.countP (fun nd => nd.isMainNode) = 1 := by
  induction ns with
  | nil => intro st _ _ hc; exact hc
  | cons ni ns ih =>
    intro st hflag hroot hc
    simp only [List.foldl_cons]
    refine ih (listedNodeStep st ni) (fun x hx hm => hflag x (by simp [hx]) hm) ?_ ?_
    · unfold listedNodeStep
      dsimp only
      split
      · exact hroot
      · exact List.mem_append_left _ hroot
    · unfold listedNodeStep
      dsimp only
      split
      · exact hc
      · rename_i hnc
        have hm : ni.isMainNode = false := by
          by_contra hm
          rw [Bool.not_eq_false] at hm
          apply hnc
          rw [hflag ni (by simp) hm]
          exact List.elem_iff.mpr hroot
        rw [List.countP_append]
        simp [mkListedNode, hm, hc]

/-- The connections loop only ever adds nodes without the `isMainNode`
flag, so it preserves a unique `isMainNode` count. -/
theorem connFold_count (mainId : String) (l : List (Nat × Connection)) :
    ∀ (st : BuildSt),
      st.nodes.countP (fun nd => nd.isMainNode) = 1 →
      (l.foldl (connStep mainId) st).nodes.countP (fun nd => nd.isMainNode) = 1 := by
  induction l with
  | nil => exact fun st hc => hc
  | cons p ps ih =>
    intro st hc
    simp only [List.foldl_cons]
    apply ih
    unfold connStep
    split
    · exact hc
    · split
      · exact hc
      · split
        · dsimp only
          split
          · exact hc
          · rw [List.countP_append]
            simp [mkPathTargetNode, hc]
        · dsimp only
          split
          · exact hc
          · rw [List.countP_append]
            simp [mkStarNode, hc]

/-- Claim C1 (amended): every graph built from a record with a focal
entity has exactly one `isMainNode` node, provided every backend node
entry whose `isMainNode` flag is truthy resolves to the root id (the
source propagates the incoming flag, so a flagged entry under a
different id would yield a second root-flagged node — see the
counterexample). -/
theorem build_unique_root (r : InputRecord) (n : FocalEntity)
    (hn : r.n = some n)
    (hflag : ∀ ni ∈ r.nodes.getD [], ni.isMainNode = true →
      listedNodeId ni = (mkMainNode n).id) :
    (nodeDataToCytoscape r).nodes.countP (fun nd => nd.isMainNode) = 1 := by
  have hmain1 : ([mkMainNode n] : List GNode).countP (fun nd => nd.isMainNode) = 1 := by
    simp [mkMainNode]
  unfold nodeDataToCytoscape
  rw [hn]
  cases he : r.edges with
  | some es =>
    cases hns : r.nodes with
    | some ns =>
      simp only []
      apply listedFold_count (mkMainNode n).id ns _ _ (by simp) hmain1
      rw [hns] at hflag
      exact hflag
    | none =>
      simp only []
      cases hcs : r.connections with
      | some conns => exact connFold_count (mkMainNode n).id conns.enum _ hmain1
      | none => exact hmain1
  | none =>
    simp only []
    cases hcs : r.connections with
    | some conns => exact connFold_count (mkMainNode n).id conns.enum _ hmain1
    | none => exact hmain1

/-- Input record used to refute claim C1 as stated: a backend node entry
with a truthy `isMainNode` flag under an id that differs from the root. -/
def C1record : InputRecord :=
  { n := some ⟨some "A", none⟩
    nodes := some [⟨some "B", true, ⟨"B", none⟩⟩]
    edges := some []
    connections := none }

/-- Counterexample to claim C1 as stated: with a backend-supplied
`isMainNode: true` entry under a fresh id, the built graph carries two
root-flagged nodes, not exactly one. -/
theorem build_two_root_flags :
    ¬((nodeDataToCytoscape C1record).nodes.countP (fun nd => nd.isMainNode) = 1) := by
  decide

/-- Concrete instance of the C1 amended theorem: a record whose flagged
entry carries the root id itself builds a graph with exactly one
root-flagged node. -/
theorem build_unique_root_witness :
    (nodeDataToCytoscape
      { n := some ⟨some "A", none⟩
        nodes := some [⟨some "A", true, ⟨"A", none⟩⟩, ⟨some "B", false, ⟨"B", none⟩⟩]
        edges := some [⟨none, "A", "B", .str "USES"⟩]
        connections := none }).nodes.countP (fun nd => nd.isMainNode) = 1 :=
  build_unique_root _ ⟨some "A", none⟩ rfl (by decide)

/-- Invariant I3 of the specification: every edge endpoint names a node
present in the graph. -/
def EndpointsPresent (g : Graph) : Prop :=
  ∀ e ∈ g.edges,
    (∃ nd ∈ g.nodes, nd.id = e.source) ∧ (∃ nd ∈ g.nodes, nd.id = e.target)

instance (g : Graph) : Decidable (EndpointsPresent g) := by
  unfold EndpointsPresent
  infer_instance

/-- Invariant carried through the connections loop: the processed id set
mirrors the node list, contains the main id, and covers every edge
endpoint emitted so far. -/
def ConnInv (mainId : String) (st : BuildSt) : Prop :=
  st.processed = st.nodes.map (fun nd => nd.id) ∧
    mainId ∈ st.processed ∧
    ∀ e ∈ st.edges, e.source ∈ st.processed ∧ e.target ∈ st.processed

/-- A connection step on a legacy (star) entry preserves `ConnInv`: the
synthesized edge runs from the main id to the connected node id, which is
processed by then. -/
theorem connStep_legacy_inv (mainId : String) (p : Nat × Connection)
    (hleg : p.2.source = none ∨ p.2.target = none)
    (st : BuildSt) (h : ConnInv mainId st) :
    ConnInv mainId (connStep mainId st p) := by
  obtain ⟨hmap, hmain, hedges⟩ := h
  unfold connStep
  split
  · exact ⟨hmap, hmain, hedges⟩
  · split
    · exact ⟨hmap, hmain, hedges⟩
    · split
      · -- the path-aware branch is impossible for a legacy entry
        rename_i hsrc htgt
        rcases hleg with hz | hz
        · rw [hz] at hsrc
          exact Option.noConfusion hsrc
        · rw [hz] at htgt
          exact Option.noConfusion htgt
      · -- legacy star branch
        dsimp only
        split
        · rename_i hcont
          refine ⟨hmap, hmain, ?_⟩
          intro e he
          rw [List.mem_append] at he
          rcases he with he | he
          · exact hedges e he
          · rw [List.mem_singleton] at he
            subst he
            exact ⟨hmain, List.elem_iff.mp hcont⟩
        · refine ⟨?_, List.mem_append_left _ hmain, ?_⟩
          · rw [List.map_append, hmap]
            rfl
          · intro e he
            rw [List.mem_append] at he
            rcases he with he | he
            · obtain ⟨h1, h2⟩ := hedges e he
              exact ⟨List.mem_append_left _ h1, List.mem_append_left _ h2⟩
            · rw [List.mem_singleton] at he
              subst he
              exact ⟨List.mem_append_left _ hmain, List.mem_append_right _ (by simp [mkConnEdge])⟩

/-- The connections fold preserves `ConnInv` for lists of legacy
entries. -/
theorem connFold_inv (mainId : String) (l : List (Nat × Connection)) :
    (∀ p ∈ l, p.2.source = none ∨ p.2.target = none) →
    ∀ st, ConnInv mainId st → ConnInv mainId (l.foldl (connStep mainId) st) := by
  induction l with
  | nil => intro _ st h; exact h
  | cons p ps ih =>
    intro hleg st h
    simp only [List.foldl_cons]
    exact ih (fun q hq => hleg q (by simp [hq])) _
      (connStep_legacy_inv mainId p (hleg p (by simp)) st h)

/-- The second component of an entry of `List.enum` is an element of the
underlying list. -/
theorem snd_mem_of_mem_enum {α : Type _} {p : Nat × α} {l : List α} (h : p ∈ l.enum) :
    p.2 ∈ l := by
  have hm := List.mem_map_of_mem Prod.snd h
  rwa [List.enum_map_snd] at hm

/-- The connections fold starting from the root-only state yields a graph
whose edges all resolve to present nodes, for legacy entries. -/
theorem connFold_endpoints (n : FocalEntity) (conns : List Connection)
    (hleg : ∀ c ∈ conns, c.source = none ∨ c.target = none) :
    EndpointsPresent
      { nodes := (conns.enum.foldl (connStep (mkMainNode n).id)
          { nodes := [mkMainNode n], edges := [], processed := [(mkMainNode n).id] }).nodes
        edges := (conns.enum.foldl (connStep (mkMainNode n).id)
          { nodes := [mkMainNode n], edges := [], processed := [(mkMainNode n).id] }).edges } := by
  have hinv := connFold_inv (mkMainNode n).id conns.enum
    (fun p hp => hleg p.2 (snd_mem_of_mem_enum hp))
    { nodes := [mkMainNode n], edges := [], processed := [(mkMainNode n).id] }
    ⟨by simp, by simp, by intro e he; simp at he⟩
  obtain ⟨hmap, hmain, hedges⟩ := hinv
  intro e he
  obtain ⟨h1, h2⟩ := hedges e he
  rw [hmap] at h1 h2
  constructor
  · obtain ⟨nd, hnd, hid⟩ := List.mem_map.mp h1
    exact ⟨nd, hnd, hid⟩
  · obtain ⟨nd, hnd, hid⟩ := List.mem_map.mp h2
    exact ⟨nd, hnd, hid⟩

/-- Claim C3 (amended): for records without the explicit `nodes`/`edges`
arrays whose connection entries are all legacy (no truthy
source/target), every edge of the built graph resolves both endpoints to
present nodes. In the explicit format `build` emits edges as given with
no endpoint validation at all — see the counterexample, which refutes
the claim that such edges are dropped. -/
theorem build_legacy_endpoints (r : InputRecord)
    (hne : r.edges = none ∨ r.nodes = none)
    (hleg : ∀ c ∈ r.connections.getD [], c.source = none ∨ c.target = none) :
    EndpointsPresent (nodeDataToCytoscape r) := by
  unfold nodeDataToCytoscape
  cases hn : r.n with
  | none => intro e he; simp at he
  | some n =>
    cases he : r.edges with
    | some es =>
      cases hns : r.nodes with
      | some ns =>
        rcases hne with hz | hz
        · rw [he] at hz
          exact Option.noConfusion hz
        · rw [hns] at hz
          exact Option.noConfusion hz
      | none =>
        cases hcs : r.connections with
        | some conns =>
          rw [hcs] at hleg
          exact connFold_endpoints n conns hleg
        | none => intro e he2; simp at he2
    | none =>
      cases hns : r.nodes with
      | some ns =>
        cases hcs : r.connections with
        | some conns =>
          rw [hcs] at hleg
          exact connFold_endpoints n conns hleg
        | none => intro e he2; simp at he2
      | none =>
        cases hcs : r.connections with
        | some conns =>
          rw [hcs] at hleg
          exact connFold_endpoints n conns hleg
        | none => intro e he2; simp at he2

/-- Input record used to refute claim C3 as stated: an explicit edge
whose endpoints name no listed node. -/
def C3record : InputRecord :=
  { n := some ⟨some "A", none⟩
    nodes := some []
    edges := some [⟨none, "X", "Y", .str "USES"⟩]
    connections := none }

/-- Counterexample to claim C3 as stated: the dangling edge X→Y is kept
in the built graph (not dropped), with neither endpoint present in the
node set. -/
theorem build_keeps_dangling_edge : ¬ EndpointsPresent (nodeDataToCytoscape C3record) := by
  decide

/-- Concrete instance of the C3 amended theorem: a legacy two-connection
record builds a graph whose edges all resolve to present nodes. -/
theorem build_legacy_endpoints_witness :
    EndpointsPresent (nodeDataToCytoscape
      { n := some ⟨some "A", none⟩
        nodes := none
        edges := none
        connections := some [⟨some ⟨some "B", none⟩, .str "USES", none, none⟩,
                             ⟨some ⟨some "C", none⟩, .str "TARGETS", none, none⟩] }) :=
  build_legacy_endpoints _ (Or.inl rfl) (by decide)

/-- Claim C4: with explicit `nodes`/`edges` arrays, `build` reproduces
exactly the listed edge topology — the emitted edge list has one edge
per listed edge, in order, with the literal source and target, and no
other edge is synthesized. -/
theorem build_preserves_listed_topology (r : InputRecord) (n : FocalEntity)
    (ns : List InputNode) (es : List InputEdge)
    (hn : r.n = some n) (hns : r.nodes = some ns) (hes : r.edges = some es) :
    (nodeDataToCytoscape r).edges.map (fun e => (e.source, e.target)) =
      es.map (fun e => (e.source, e.target)) := by
  unfold nodeDataToCytoscape
  rw [hn, hes, hns]
  dsimp only
  rw [List.map_map]
  have hcomp : ((fun e : GEdge => (e.source, e.target)) ∘
        fun p : Nat × InputEdge => mkListedEdge p.1 p.2)
      = (fun e : InputEdge => (e.source, e.target)) ∘ Prod.snd := by
    funext p
    rfl
  rw [hcomp, ← List.map_map, List.enum_map_snd]

/-- Record of the spec example for C4: nodes A (root), B, C with the
single listed edge B→C. -/
def C4record : InputRecord :=
  { n := some ⟨some "A", none⟩
    nodes := some [⟨some "A", true, ⟨"A", none⟩⟩,
                   ⟨some "B", false, ⟨"B", none⟩⟩,
                   ⟨some "C", false, ⟨"C", none⟩⟩]
    edges := some [⟨none, "B", "C", .str "USES"⟩]
    connections := none }

/-- Concrete instance of the C4 theorem on the spec example: the only
edge is B→C and the root A has zero incident edges (no star is
synthesized). -/
theorem build_preserves_listed_topology_witness :
    (nodeDataToCytoscape C4record).edges.map (fun e => (e.source, e.target)) = [("B", "C")] ∧
    ((nodeDataToCytoscape C4record).edges.filter
      (fun e => e.source == "A" || e.target == "A")).length = 0 :=
  ⟨(build_preserves_listed_topology C4record ⟨some "A", none⟩ _ _ rfl rfl rfl).trans (by decide),
   by decide⟩

/-- Claim C5: a legacy connection entry carrying node B and relationship
USES, with no source/target fields, makes `build` add node B and
synthesize exactly one edge from the root id to B labeled USES. -/
theorem build_legacy_star_edge (fname flabel : Option String)
    (bname : String) (blabel : Option String)
    (hne : bname ≠ jsOrOpt fname "unknown") :
    ((nodeDataToCytoscape
        { n := some ⟨fname, flabel⟩
          nodes := none
          edges := none
          connections := some [⟨some ⟨some bname, blabel⟩, .str "USES", none, none⟩] }).nodes.map
        (fun nd => nd.id) = [jsOrOpt fname "unknown", bname]) ∧
    ((nodeDataToCytoscape
        { n := some ⟨fname, flabel⟩
          nodes := none
          edges := none
          connections := some [⟨some ⟨some bname, blabel⟩, .str "USES", none, none⟩] }).edges.map
        (fun e => (e.source, e.target, e.relationshipType)) =
      [(jsOrOpt fname "unknown", bname, "USES")]) := by
  have hbeq : (bname == jsOrOpt fname "unknown") = false := beq_eq_false_iff_ne.mpr hne
  unfold nodeDataToCytoscape connStep
  simp [List.enum, List.enumFrom, getRelationshipString, hbeq, hne,
        mkMainNode, mkStarNode, mkConnEdge]

/-- Concrete instance of the C5 theorem: searching APT28 with a legacy
connection to Mimikatz yields the single star edge APT28→Mimikatz
labeled USES. -/
theorem build_legacy_star_edge_witness :
    ((nodeDataToCytoscape
        { n := some ⟨some "APT28", some "ThreatActor"⟩
          nodes := none
          edges := none
          connections := some [⟨some ⟨some "Mimikatz", some "Tool"⟩, .str "USES",
            none, none⟩] }).nodes.map (fun nd => nd.id) = [jsOrOpt (some "APT28") "unknown", "Mimikatz"]) ∧
    ((nodeDataToCytoscape
        { n := some ⟨some "APT28", some "ThreatActor"⟩
          nodes := none
          edges := none
          connections := some [⟨some ⟨some "Mimikatz", some "Tool"⟩, .str "USES",
            none, none⟩] }).edges.map (fun e => (e.source, e.target, e.relationshipType)) =
      [(jsOrOpt (some "APT28") "unknown", "Mimikatz", "USES")]) :=
  build_legacy_star_edge (some "APT28") (some "ThreatActor") "Mimikatz" (some "Tool") (by decide)

end ThreatGraph

namespace Timeline

instance : IsTotal TimelineEntry (fun a b => a.startDate ≤ b.startDate) :=
  ⟨fun a b => le_total a.startDate b.startDate⟩

instance : IsTrans TimelineEntry (fun a b => a.startDate ≤ b.startDate) :=
  ⟨fun _ _ _ hab hbc => le_trans hab hbc⟩

/-- Length of a `filterMap` counts the inputs the function keeps. -/
theorem length_filterMap_eq_countP {α β : Type _} (f : α → Option β) (l : List α) :
    (l.filterMap f).length = l.countP (fun a => (f a).isSome) := by
  induction l with
  | nil => rfl
  | cons x xs ih =>
    cases hfx : f x with
    | none => simp [List.filterMap_cons, hfx, List.countP_cons, ih]
    | some b => simp [List.filterMap_cons, hfx, List.countP_cons, ih]

/-- The head (with default) of a nonempty list is a member. -/
theorem headD_int_mem {l : List Int} (h : l ≠ []) : l.headD 0 ∈ l := by
  cases l with
  | nil => exact absurd rfl h
  | cons a t => simp

/-- In a list sorted ascending, the head is a lower bound. -/
theorem sorted_headD_le {l : List Int} (hs : l.Sorted (fun a b : Int => a ≤ b)) :
    ∀ x ∈ l, l.headD 0 ≤ x := by
  cases l with
  | nil => intro x hx; simp at hx
  | cons a t =>
    intro x hx
    rcases List.mem_cons.mp hx with h | h
    · subst h; simp
    · simpa using List.rel_of_sorted_cons hs x h

/-- The last element (with default) of a nonempty list is a member. -/
theorem getLastD_int_mem : ∀ (l : List Int) (d : Int), l ≠ [] → l.getLastD d ∈ l
  | [], _, h => absurd rfl h
  | [a], _, _ => by simp [List.getLastD]
  | a :: b :: u, d, _ => by
    rw [List.getLastD_cons d a (b :: u)]
    exact List.mem_cons_of_mem a (getLastD_int_mem (b :: u) a (by simp))

/-- In a list sorted ascending, the last element is an upper bound. -/
theorem sorted_le_getLastD : ∀ (l : List Int) (d : Int),
    l.Sorted (fun a b : Int => a ≤ b) → ∀ x ∈ l, x ≤ l.getLastD d
  | [], _, _, x, hx => absurd hx (by simp)
  | a :: t, d, hs, x, hx => by
    rw [List.getLastD_cons d a t]
    rcases List.mem_cons.mp hx with h | h
    · subst h
      cases t with
      | nil => simp [List.getLastD]
      | cons b u =>
        exact List.rel_of_sorted_cons hs _ (getLastD_int_mem (b :: u) x (by simp))
    · exact sorted_le_getLastD t a hs.of_cons x h

/-- Evaluation of `getDateRange` on a nonempty field list. -/
theorem getDateRange_eq_some (dfs : List (String × Int)) (h : dfs ≠ []) :
    getDateRange dfs = some
      { startDate := ((dfs.map (fun p => p.2)).insertionSort (fun a b => a ≤ b)).headD 0
        endDate := ((dfs.map (fun p => p.2)).insertionSort (fun a b => a ≤ b)).getLastD 0
        markers := dfs } := by
  have hne2 : ((dfs.map (fun p => p.2)).isEmpty) = false := by
    simp [List.isEmpty_iff, h]
  unfold getDateRange
  simp only [hne2, Bool.false_eq_true, if_false]

/-- Characterization of the range computed by `getDateRange`: the start
is the minimum and the end the maximum of the extracted date values. -/
theorem getDateRange_minmax (dfs : List (String × Int)) (h : dfs ≠ []) :
    ∃ rg, getDateRange dfs = some rg ∧
      rg.startDate ∈ dfs.map (fun p => p.2) ∧
      (∀ v ∈ dfs.map (fun p => p.2), rg.startDate ≤ v) ∧
      rg.endDate ∈ dfs.map (fun p => p.2) ∧
      (∀ v ∈ dfs.map (fun p => p.2), v ≤ rg.endDate) ∧
      rg.markers = dfs := by
  have hvals : dfs.map (fun p => p.2) ≠ [] := by
    simp [List.map_eq_nil_iff, h]
  have hperm := List.perm_insertionSort (fun a b : Int => a ≤ b) (dfs.map (fun p => p.2))
  have hsorted := List.sorted_insertionSort (fun a b : Int => a ≤ b) (dfs.map (fun p => p.2))
  have hsne : (dfs.map (fun p => p.2)).insertionSort (fun a b => a ≤ b) ≠ [] := by
    intro hnil
    rw [hnil] at hperm
    exact hvals hperm.nil_eq.symm
  refine ⟨_, getDateRange_eq_some dfs h, ?_, ?_, ?_, ?_, rfl⟩
  · exact hperm.mem_iff.mp (headD_int_mem hsne)
  · intro v hv2
    exact sorted_headD_le hsorted v (hperm.mem_iff.mpr hv2)
  · exact hperm.mem_iff.mp (getLastD_int_mem _ 0 hsne)
  · intro v hv2
    exact sorted_le_getLastD _ 0 hsorted v (hperm.mem_iff.mpr hv2)

/-- The extracted field list is empty exactly when no known date field
parses. -/
theorem extractDateFields_eq_nil_iff (props : String → Option Int) :
    extractDateFields props = [] ↔
      DATE_FIELDS.any (fun f => (props f).isSome) = false := by
  unfold extractDateFields
  generalize DATE_FIELDS = l
  induction l with
  | nil => simp
  | cons x xs ih =>
    cases hfx : props x with
    | none =>
      rw [List.filterMap_cons_none (by simp [hfx])]
      rw [ih]
      simp [hfx]
    | some d => simp [List.filterMap_cons, hfx]

/-- A node produces a timeline entry exactly when one of the known date
fields parses. -/
theorem timelineItem_isSome (node : TLNode) :
    (timelineItem node).isSome = DATE_FIELDS.any (fun f => (node.props f).isSome) := by
  unfold timelineItem
  by_cases hemp : extractDateFields node.props = []
  · rw [if_pos (by simp [List.isEmpty_iff, hemp])]
    rw [(extractDateFields_eq_nil_iff node.props).mp hemp]
    rfl
  · rw [if_neg (by simp [List.isEmpty_iff, hemp])]
    obtain ⟨rg, hrg, _⟩ := getDateRange_minmax _ hemp
    rw [hrg]
    cases hany : DATE_FIELDS.any (fun f => (node.props f).isSome) with
    | true => simp
    | false => exact absurd ((extractDateFields_eq_nil_iff node.props).mpr hany) hemp

/-- Specification of the entry produced for one node: it carries the
node id, its start is the minimum and its end the maximum of the parsed
date values, hence start ≤ end. -/
theorem timelineItem_some_spec (node : TLNode) (e : TimelineEntry)
    (h : timelineItem node = some e) :
    e.nodeId = node.id ∧
      (∃ p ∈ extractDateFields node.props, p.2 = e.startDate) ∧
      (∀ p ∈ extractDateFields node.props, e.startDate ≤ p.2) ∧
      (∃ p ∈ extractDateFields node.props, p.2 = e.endDate) ∧
      (∀ p ∈ extractDateFields node.props, p.2 ≤ e.endDate) ∧
      e.startDate ≤ e.endDate := by
  unfold timelineItem at h
  by_cases hemp : extractDateFields node.props = []
  · rw [if_pos (by simp [List.isEmpty_iff, hemp])] at h
    exact Option.noConfusion h
  · rw [if_neg (by simp [List.isEmpty_iff, hemp])] at h
    obtain ⟨rg, hrg, hsmem, hsmin, hemem, hemax, _⟩ := getDateRange_minmax _ hemp
    rw [hrg] at h
    rw [Option.map_some'] at h
    injection h with he
    subst he
    refine ⟨rfl, ?_, ?_, ?_, ?_, ?_⟩
    · exact List.mem_map.mp hsmem
    · intro p hp
      exact hsmin p.2 (List.mem_map_of_mem _ hp)
    · exact List.mem_map.mp hemem
    · intro p hp
      exact hemax p.2 (List.mem_map_of_mem _ hp)
    · exact hemax rg.startDate hsmem

/-- Claim C10: `processNodesForTimeline` emits one entry per node that
has at least one parsed date field among the seven known ones (nodes
with none are omitted), each entry carries as `startDate` the earliest
and as `endDate` the latest parsed date of its node (so start ≤ end),
and the returned list is sorted ascending by `startDate`. -/
theorem processNodesForTimeline_spec (nodes : List TLNode) :
    List.Sorted (fun a b => a.startDate ≤ b.startDate) (processNodesForTimeline nodes) ∧
      (processNodesForTimeline nodes).length
        = nodes.countP (fun node => DATE_FIELDS.any (fun f => (node.props f).isSome)) ∧
      ∀ e ∈ processNodesForTimeline nodes, ∃ node ∈ nodes,
        e.nodeId = node.id ∧
          (∃ p ∈ extractDateFields node.props, p.2 = e.startDate) ∧
          (∀ p ∈ extractDateFields node.props, e.startDate ≤ p.2) ∧
          (∃ p ∈ extractDateFields node.props, p.2 = e.endDate) ∧
          (∀ p ∈ extractDateFields node.props, p.2 ≤ e.endDate) ∧
          e.startDate ≤ e.endDate := by
  refine ⟨?_, ?_, ?_⟩
  · unfold processNodesForTimeline
    exact List.sorted_insertionSort _ _
  · unfold processNodesForTimeline
    rw [List.length_insertionSort, length_filterMap_eq_countP]
    exact List.countP_congr (fun node _ => by rw [timelineItem_isSome node])
  · intro e he
    unfold processNodesForTimeline at he
    rw [List.mem_insertionSort] at he
    obtain ⟨node, hn, hitem⟩ := List.mem_filterMap.mp he
    exact ⟨node, hn, timelineItem_some_spec node e hitem⟩

/-- Node list used in the C10 witness: one node with two parsed date
fields. -/
def C10nodes : List TLNode :=
  [⟨"n1", "N1", "Campaign", "#f59e0b",
    fun f => if f = "first_seen" then some 9 else if f = "last_seen" then some 2 else none⟩]

/-- Entry produced for the C10 witness node. -/
def C10entry : TimelineEntry :=
  ⟨"n1", "N1", "Campaign", 2, 9, [("first_seen", 9), ("last_seen", 2)], "#f59e0b"⟩

/-- Concrete instance of the C10 theorem: the single produced entry
spans 2..9, the min and max of the parsed values of its node. -/
theorem processNodesForTimeline_spec_witness :
    ∃ node ∈ C10nodes,
      C10entry.nodeId = node.id ∧
        (∃ p ∈ extractDateFields node.props, p.2 = C10entry.startDate) ∧
        (∀ p ∈ extractDateFields node.props, C10entry.startDate ≤ p.2) ∧
        (∃ p ∈ extractDateFields node.props, p.2 = C10entry.endDate) ∧
        (∀ p ∈ extractDateFields node.props, p.2 ≤ C10entry.endDate) ∧
        C10entry.startDate ≤ C10entry.endDate :=
  (processNodesForTimeline_spec C10nodes).2.2 C10entry (by decide)

end Timeline

